import Mathlib

/-
Shallow embedding of the datetime.js core (src/datetime.ts and src/interval.ts).

JS numbers are modelled as mathematical integers (`Int`); every value the library
manipulates at the embedded call sites is integral.  The JS integer operations map to:
  * `a % b`  (JS remainder, sign of the dividend)  ->  `Int.tmod`
  * `Math.floor(a / b)`                            ->  `Int.fdiv`
  * `(a / b) | 0` (truncation toward zero)         ->  `Int.tdiv`
The source's named constants (monthsInYear = 12, hoursInDay = 24, minutesInHour = 60,
secondsInMinute = 60, millisInSecond = 1000, daysInYear = 365, daysInWeek = 7) are
inlined as the corresponding literals.
One JS value in this code is not an integer: in the `Interval` constructor the
`days` counter can become NaN (see `daysInCurrentMonthJS` below); that single field is
therefore modelled as `Option Int`, with `none` standing for NaN.
-/

namespace DatetimeJS

/-- Modelled from the spec: the `modulo` helper imported from the external `emnorst`
package (not part of this repository) is the mathematical modulo, "using mathematical
modulo so negative inputs produce non-negative remainders" (spec section 4.2).  For the
positive divisors used here this is exactly `Int.emod`. -/
def modulo (a b : Int) : Int := a % b

/-- Embedding of `isLeapYear` (src/datetime.ts):
`year % 4 === 0 && (year % 100 !== 0 || year % 400 === 0)`. -/
def isLeapYear (year : Int) : Bool :=
  year.tmod 4 == 0 && (year.tmod 100 != 0 || year.tmod 400 == 0)

/-- Embedding of the table `daysInMonthArray` (src/datetime.ts). -/
def daysInMonthArray : List Int := [31, 28, 31, 30, 31, 30, 31, 31, 30, 31, 30, 31]

/-- Embedding of `daysInMonth` (src/datetime.ts):
`daysInMonthArray[month - 1] + (+(month === 2 && isLeapYear(year)))`.
At every in-repo call site of `daysInMonth` the month is in [1, 12]; an out-of-range
month would read `undefined` off the JS array (propagating NaN), which is modelled
separately by `daysInCurrentMonthJS` for the one caller where that can happen.  The
`getD` default (and `toNat` clamp) return a positive dummy so this function stays
total; those branches are unreachable from the call sites embedded below. -/
def daysInMonth (year month : Int) : Int :=
  daysInMonthArray.getD (month - 1).toNat 31 + (if month = 2 ∧ isLeapYear year then 1 else 0)

/-- Embedding of `leapDays` (src/datetime.ts):
`(year / 4 | 0) - (year / 100 | 0) + (year / 400 | 0)`.  The `| 0` coercion truncates
toward zero, hence `Int.tdiv`. -/
def leapDays (year : Int) : Int :=
  year.tdiv 4 - year.tdiv 100 + year.tdiv 400

/-- The `IDate` interface of src/datetime.ts: a raw (not necessarily canonical) date
field tuple. -/
structure IDate where
  year : Int
  month : Int
  day : Int
deriving DecidableEq

/-- Embedding of `yearday` (src/datetime.ts):
`m = (month + 9) % 12 + 4`; `((306 * m / 10 | 0) - 64 + day) % daysInYear`, plus one
when `month > 2 && isLeapYear(year)`. -/
def yearday (date : IDate) : Int :=
  let m := (date.month + 9).tmod 12 + 4
  let dayOfYearWithoutLeapDay := ((306 * m).tdiv 10 - 64 + date.day).tmod 365
  let leapDay : Int := if 2 < date.month ∧ isLeapYear date.year then 1 else 0
  dayOfYearWithoutLeapDay + leapDay

/-- Embedding of `weekday` (src/datetime.ts):
`(date.year + leapDays(date.year - 1) + yearday(date)) % daysInWeek`, with the JS
(truncated, sign-of-dividend) remainder. -/
def weekday (date : IDate) : Int :=
  (date.year + leapDays (date.year - 1) + yearday date).tmod 7

/-- Embedding of the first statement of `normalizeDate` (src/datetime.ts):
`modulo(date.month, monthsInYear) || monthsInYear` — the JS `||` replaces a (falsy)
zero remainder by 12. -/
def normStartMonth (month : Int) : Int :=
  if modulo month 12 = 0 then 12 else modulo month 12

/-- Embedding of the first `while` loop of `normalizeDate` (src/datetime.ts): while the
day overflows the current month, subtract that month's length and advance the month,
rolling the year at month 13.  State is `(year, month, day)`. -/
def normDateUp (year month day : Int) : Int × Int × Int :=
  if _h : daysInMonth year month < day then
    if 12 < month + 1 then
      normDateUp (year + 1) 1 (day - daysInMonth year month)
    else
      normDateUp year (month + 1) (day - daysInMonth year month)
  else (year, month, day)
termination_by day.toNat
decreasing_by
  all_goals
    have h28 : 0 < daysInMonth year month := by
      have hT : ∀ i : Nat, 28 ≤ daysInMonthArray.getD i 31 := by
        intro i
        rcases i with _|_|_|_|_|_|_|_|_|_|_|_|i <;> norm_num [daysInMonthArray, List.getD]
      have h2 := hT (month - 1).toNat
      unfold daysInMonth
      split <;> omega
    omega

/-- Embedding of the second `while` loop of `normalizeDate` (src/datetime.ts): while the
day is non-positive, retreat the month (rolling the year below month 1) and add the new
month's length to the day. -/
def normDateDown (year month day : Int) : Int × Int × Int :=
  if _h : day ≤ 0 then
    if month - 1 < 1 then
      normDateDown (year - 1) 12 (day + daysInMonth (year - 1) 12)
    else
      normDateDown year (month - 1) (day + daysInMonth year (month - 1))
  else (year, month, day)
termination_by (1 - day).toNat
decreasing_by
  all_goals
    have hT : ∀ (y i : Int), 0 < daysInMonth y i := by
      intro y i
      have hT2 : ∀ j : Nat, 28 ≤ daysInMonthArray.getD j 31 := by
        intro j
        rcases j with _|_|_|_|_|_|_|_|_|_|_|_|j <;> norm_num [daysInMonthArray, List.getD]
      have h2 := hT2 (i - 1).toNat
      unfold daysInMonth
      split <;> omega
  · have h28 := hT (year - 1) 12
    omega
  · have h28 := hT year (month - 1)
    omega

/-- Embedding of `normalizeDate` (src/datetime.ts): month overflow is resolved first
(`normStartMonth` together with `year + Math.floor((month - 1) / 12)`), then the two
day-carry loops run in sequence on the shared mutable state. -/
def normalizeDate (date : IDate) : IDate :=
  let month := normStartMonth date.month
  let year := date.year + (date.month - 1).fdiv 12
  let p := normDateUp year month date.day
  let q := normDateDown p.1 p.2.1 p.2.2
  { day := q.2.2, month := q.2.1, year := q.1 }

/-- The `ITime` interface of src/datetime.ts: a raw time field tuple. -/
structure ITime where
  hour : Int
  minute : Int
  second : Int
  millisecond : Int
deriving DecidableEq

/-- Embedding of `normalizeTime` (src/datetime.ts): carries cascade upward from
milliseconds; the hour is returned unreduced, the finer fields via `modulo`. -/
def normalizeTime (time : ITime) : ITime :=
  let millisecond := time.millisecond
  let second := time.second + millisecond.fdiv 1000
  let minute := time.minute + second.fdiv 60
  let hour := time.hour + minute.fdiv 60
  { hour := hour
    minute := modulo minute 60
    second := modulo second 60
    millisecond := modulo millisecond 1000 }

/-- The seven-field tuple shared by the `IDateTime` interface and the `DateTime` class
of src/datetime.ts.  Raw (pre-normalization) tuples and canonical `DateTime` values are
the same Lean type; the class's private constructor is the structure literal at the end
of `normalizeDateTime`. -/
structure DateTime where
  year : Int
  month : Int
  day : Int
  hour : Int
  minute : Int
  second : Int
  millisecond : Int
deriving DecidableEq

/-- Embedding of `normalizeDateTime` (src/datetime.ts): normalize the time, fold the
unbounded hour into the day, normalize the date, and reduce the hour modulo 24. -/
def normalizeDateTime (dt : DateTime) : DateTime :=
  let time := normalizeTime { hour := dt.hour, minute := dt.minute, second := dt.second, millisecond := dt.millisecond }
  let date := normalizeDate { day := dt.day + time.hour.fdiv 24, month := dt.month, year := dt.year }
  { year := date.year
    month := date.month
    day := date.day
    hour := modulo time.hour 24
    minute := time.minute
    second := time.second
    millisecond := time.millisecond }

/-- The canonical-range invariant on a date tuple (spec section 3). -/
def CanonicalDate (d : IDate) : Prop :=
  1 ≤ d.month ∧ d.month ≤ 12 ∧ 1 ≤ d.day ∧ d.day ≤ daysInMonth d.year d.month

instance (d : IDate) : Decidable (CanonicalDate d) := by
  unfold CanonicalDate; infer_instance

/-- The canonical-range invariant on a full `DateTime` tuple (spec section 3):
month in [1,12], day in [1, daysInMonth], hour in [0,23], minute and second in [0,59],
millisecond in [0,999]. -/
def Canonical (d : DateTime) : Prop :=
  1 ≤ d.month ∧ d.month ≤ 12 ∧ 1 ≤ d.day ∧ d.day ≤ daysInMonth d.year d.month ∧
  0 ≤ d.hour ∧ d.hour ≤ 23 ∧ 0 ≤ d.minute ∧ d.minute ≤ 59 ∧
  0 ≤ d.second ∧ d.second ≤ 59 ∧ 0 ≤ d.millisecond ∧ d.millisecond ≤ 999

instance (d : DateTime) : Decidable (Canonical d) := by
  unfold Canonical; infer_instance

/-- The `Partial<IDateTime>` argument of `DateTime.prototype.with` (src/datetime.ts):
every field optional, `none` meaning absent (the JS `??` fallback then keeps the
receiver's field). -/
structure PartialDateTime where
  year : Option Int := none
  month : Option Int := none
  day : Option Int := none
  hour : Option Int := none
  minute : Option Int := none
  second : Option Int := none
  millisecond : Option Int := none
deriving DecidableEq

/-- Modelled from the spec: the `DurationObject` / `IDuration` shape lives in
src/duration.ts, which is not under src/; spec section 3 specifies it as
"{years, months, days, hours, minutes, seconds, milliseconds: integer}, any subset
optionally present (missing = 0)". -/
structure DurationObject where
  years : Option Int := none
  months : Option Int := none
  days : Option Int := none
  hours : Option Int := none
  minutes : Option Int := none
  seconds : Option Int := none
  milliseconds : Option Int := none
deriving DecidableEq

/-- Embedding of `DateTime.prototype.with` (src/datetime.ts): replace the given fields,
keep the rest (`dt.x ?? this.x`), and renormalize.  (`with` is a Lean keyword, hence the
primed name.) -/
def DateTime.with' (d : DateTime) (dt : PartialDateTime) : DateTime :=
  normalizeDateTime
    { year := dt.year.getD d.year
      month := dt.month.getD d.month
      day := dt.day.getD d.day
      hour := dt.hour.getD d.hour
      minute := dt.minute.getD d.minute
      second := dt.second.getD d.second
      millisecond := dt.millisecond.getD d.millisecond }

/-- Embedding of `DateTime.prototype.plus` (src/datetime.ts): add each present duration
component (`dur.xs ?? 0`) to the corresponding field and renormalize. -/
def DateTime.plus (d : DateTime) (dur : DurationObject) : DateTime :=
  normalizeDateTime
    { year := d.year + dur.years.getD 0
      month := d.month + dur.months.getD 0
      day := d.day + dur.days.getD 0
      hour := d.hour + dur.hours.getD 0
      minute := d.minute + dur.minutes.getD 0
      second := d.second + dur.seconds.getD 0
      millisecond := d.millisecond + dur.milliseconds.getD 0 }

/-- Modelled from the spec: `DateTime.prototype.minus`, called by `Interval.before`
(src/interval.ts line 24), is not in the src/ copy of datetime.ts.  Per spec section 4.4,
`before(end, duration)` anchors at `end` and steps backward by the duration, so `minus`
adds the negated duration components and renormalizes. -/
def DateTime.minus (d : DateTime) (dur : DurationObject) : DateTime :=
  normalizeDateTime
    { year := d.year - dur.years.getD 0
      month := d.month - dur.months.getD 0
      day := d.day - dur.days.getD 0
      hour := d.hour - dur.hours.getD 0
      minute := d.minute - dur.minutes.getD 0
      second := d.second - dur.seconds.getD 0
      millisecond := d.millisecond - dur.milliseconds.getD 0 }

/-- The unit-tag argument of `startOf`/`endOf` (src/datetime.ts):
`Exclude<keyof IDateTime, "offset" | "millisecond"> | "week"`. -/
inductive StartOfUnit where
  | year
  | month
  | week
  | day
  | hour
  | minute
  | second
deriving DecidableEq

/-- Embedding of `DateTime.prototype.startOf` (src/datetime.ts).  The labelled-block
fall-through builds the partial field object: `millisecond` is always zeroed; each
coarser unit zeroes all finer fields; `week` first rewinds the day by `weekday(this)`
and then behaves as `startOf("day")`. -/
def DateTime.startOf (d : DateTime) (key : StartOfUnit) : DateTime :=
  match key with
  | .second => d.with' { millisecond := some 0 }
  | .minute => d.with' { second := some 0, millisecond := some 0 }
  | .hour => d.with' { minute := some 0, second := some 0, millisecond := some 0 }
  | .day => d.with' { hour := some 0, minute := some 0, second := some 0, millisecond := some 0 }
  | .week =>
      d.with' { day := some (d.day - weekday { year := d.year, month := d.month, day := d.day })
                hour := some 0, minute := some 0, second := some 0, millisecond := some 0 }
  | .month => d.with' { day := some 1, hour := some 0, minute := some 0, second := some 0, millisecond := some 0 }
  | .year => d.with' { month := some 1, day := some 1, hour := some 0, minute := some 0, second := some 0, millisecond := some 0 }

/-- Embedding of `DateTime.prototype.endOf` (src/datetime.ts):
`startOf(key)` then `plus({ [key + "s"]: 1, milliseconds: -1 })`, except `week`, which
adds `{ days: 7, milliseconds: -1 }`. -/
def DateTime.endOf (d : DateTime) (key : StartOfUnit) : DateTime :=
  let start := d.startOf key
  match key with
  | .year => start.plus { years := some 1, milliseconds := some (-1) }
  | .month => start.plus { months := some 1, milliseconds := some (-1) }
  | .week => start.plus { days := some 7, milliseconds := some (-1) }
  | .day => start.plus { days := some 1, milliseconds := some (-1) }
  | .hour => start.plus { hours := some 1, milliseconds := some (-1) }
  | .minute => start.plus { minutes := some 1, milliseconds := some (-1) }
  | .second => start.plus { seconds := some 1, milliseconds := some (-1) }

/-- The `DateTime` values reachable through the public API (src/datetime.ts).
Construction is only possible through `DateTime.from` or through the arithmetic and
derivation methods of an existing value.  `fromSource` is modelled from the spec:
`DateTime.from` copies the host `Date`'s UTC getters straight into the private
constructor (src/datetime.ts lines 90-108); the host conversion itself (`new Date`,
`getUTC*`) is an external collaborator (spec sections 1 and 6) whose getters, for a
valid number/string/Date source, return calendar-canonical UTC field values. -/
inductive Reachable : DateTime → Prop where
  | fromSource (d : DateTime) : Canonical d → Reachable d
  | withStep (d : DateTime) (p : PartialDateTime) : Reachable d → Reachable (d.with' p)
  | plusStep (d : DateTime) (dur : DurationObject) : Reachable d → Reachable (d.plus dur)
  | startOfStep (d : DateTime) (k : StartOfUnit) : Reachable d → Reachable (d.startOf k)
  | endOfStep (d : DateTime) (k : StartOfUnit) : Reachable d → Reachable (d.endOf k)

/-- Embedding of the local closure `daysInCurrentMonth` of the `Interval` constructor
(src/interval.ts lines 50-56): with `m = start.month + months`, it evaluates
`daysInMonth(start.year + Math.floor(m / 12), (m % 12) || 12)`.  The JS `%` keeps the
sign of `m`, and `|| 12` only replaces a zero; so for negative `m` not divisible by 12
the month argument is negative, the array read is `undefined`, and the result is NaN —
modelled as `none`. -/
def daysInCurrentMonthJS (startYear startMonth months : Int) : Option Int :=
  let m := startMonth + months
  let mm := m.tmod 12
  let month := if mm = 0 then 12 else mm
  if 1 ≤ month ∧ month ≤ 12 then
    some (daysInMonth (startYear + m.fdiv 12) month)
  else none

/-- Embedding of the first `while` loop of the `Interval` constructor
(src/interval.ts lines 58-61): while `days > daysInCurrentMonth()`, subtract it and
increment `months`.  A NaN month length makes the comparison false, ending the loop.
State is `(months, days)`. -/
def intervalLoopUp (sy sm months days : Int) : Int × Int :=
  if _h : (daysInCurrentMonthJS sy sm months).elim false (fun k => decide (k < days)) then
    intervalLoopUp sy sm (months + 1) (days - (daysInCurrentMonthJS sy sm months).getD 0)
  else (months, days)
termination_by days.toNat
decreasing_by
  have hDIM : ∀ (y i : Int), 0 < daysInMonth y i := by
    intro y i
    have hT : ∀ j : Nat, 28 ≤ daysInMonthArray.getD j 31 := by
      intro j
      rcases j with _|_|_|_|_|_|_|_|_|_|_|_|j <;> norm_num [daysInMonthArray, List.getD]
    have h2 := hT (i - 1).toNat
    unfold daysInMonth
    split <;> omega
  rcases hk : daysInCurrentMonthJS sy sm months with _ | k
  · rw [hk] at _h
    simp at _h
  · rw [hk] at _h
    simp at _h
    have hpos : 0 < k := by
      simp only [daysInCurrentMonthJS] at hk
      split at hk <;> split at hk
      · have h2 := hDIM (sy + (sm + months).fdiv 12) 12
        have h3 := Option.some.inj hk
        omega
      · exact absurd hk (by simp)
      · have h2 := hDIM (sy + (sm + months).fdiv 12) ((sm + months).tmod 12)
        have h3 := Option.some.inj hk
        omega
      · exact absurd hk (by simp)
    simp only [Option.getD_some]
    omega

/-- Embedding of the second `while` loop of the `Interval` constructor
(src/interval.ts lines 62-65): while `days < 0`, decrement `months` and add the new
anchored month's length.  When that length is NaN, `days` becomes NaN (`none`) and the
next `days < 0` test is false, ending the loop. -/
def intervalLoopDown (sy sm months days : Int) : Int × Option Int :=
  if _h : days < 0 then
    if hs : (daysInCurrentMonthJS sy sm (months - 1)).isSome then
      intervalLoopDown sy sm (months - 1) (days + (daysInCurrentMonthJS sy sm (months - 1)).get hs)
    else (months - 1, none)
  else (months, some days)
termination_by (1 - days).toNat
decreasing_by
  have hDIM : ∀ (y i : Int), 0 < daysInMonth y i := by
    intro y i
    have hT : ∀ j : Nat, 28 ≤ daysInMonthArray.getD j 31 := by
      intro j
      rcases j with _|_|_|_|_|_|_|_|_|_|_|_|j <;> norm_num [daysInMonthArray, List.getD]
    have h2 := hT (i - 1).toNat
    unfold daysInMonth
    split <;> omega
  obtain ⟨k, hk⟩ := Option.isSome_iff_exists.mp hs
  have hget : (daysInCurrentMonthJS sy sm (months - 1)).get hs = k := by
    simp [hk]
  have hpos : 0 < k := by
    simp only [daysInCurrentMonthJS] at hk
    split at hk <;> split at hk
    · have h2 := hDIM (sy + (sm + (months - 1)).fdiv 12) 12
      have h3 := Option.some.inj hk
      omega
    · simp at hk
    · have h2 := hDIM (sy + (sm + (months - 1)).fdiv 12) ((sm + (months - 1)).tmod 12)
      have h3 := Option.some.inj hk
      omega
    · simp at hk
  rw [hget]
  omega

/-- The `Interval` class of src/interval.ts: the two endpoints plus the
cached-at-construction duration decomposition.  All cached fields are integers except
`days`, which is NaN (`none`) whenever the constructor's second loop reads an
out-of-range anchored month (see `daysInCurrentMonthJS`). -/
structure Interval where
  start : DateTime
  «end» : DateTime
  years : Int
  months : Int
  days : Option Int
  hours : Int
  minutes : Int
  seconds : Int
  milliseconds : Int
deriving DecidableEq

/-- Embedding of the `Interval` constructor (src/interval.ts lines 37-73): normalize the
raw per-field time difference, fold the hour overflow into `days`, run the two
carry/borrow loops on `(months, days)` anchored at the start date, then store
`years = Math.floor(months / 12)`, `months = months % 12` (JS remainder),
`hours = modulo(hour, 24)` and the remaining normalized time fields. -/
def mkInterval (s e : DateTime) : Interval :=
  let time := normalizeTime
    { hour := e.hour - s.hour
      minute := e.minute - s.minute
      second := e.second - s.second
      millisecond := e.millisecond - s.millisecond }
  let days0 := e.day - s.day + time.hour.fdiv 24
  let months0 := (e.year - s.year) * 12 + e.month - s.month
  let p := intervalLoopUp s.year s.month months0 days0
  let q := intervalLoopDown s.year s.month p.1 p.2
  { start := s
    «end» := e
    years := q.1.fdiv 12
    months := q.1.tmod 12
    days := q.2
    hours := modulo time.hour 24
    minutes := time.minute
    seconds := time.second
    milliseconds := time.millisecond }

/-- Embedding of `Interval.before` (src/interval.ts lines 22-25): anchored at the end,
`new Interval(enddt.minus(dur), enddt)`.  In src/interval.ts the anchor goes through
`DateTime.from`, whose behaviour on a value that already is a `DateTime` is modelled
from the spec (section 6: "a prior value of the same canonical type") as the identity,
so the argument here is the anchor `DateTime` itself. -/
def Interval.before (e : DateTime) (dur : DurationObject) : Interval :=
  mkInterval (e.minus dur) e

/-- Embedding of `Interval.after` (src/interval.ts lines 26-29): anchored at the start,
`new Interval(startdt, startdt.plus(dur))`. -/
def Interval.after (s : DateTime) (dur : DurationObject) : Interval :=
  mkInterval s (s.plus dur)

/-- The unit-tag argument of `Interval.prototype.to` (src/interval.ts):
`keyof DurationObject`. -/
inductive DurationKey where
  | years
  | months
  | days
  | hours
  | minutes
  | seconds
  | milliseconds
deriving DecidableEq

/-- Embedding of the local `days` of `Interval.prototype.to` (src/interval.ts lines
81-83): `(end.year - start.year) * daysInYearWithoutLeapDay + leapDays(end.year) -
leapDays(start.year) + yearday(end) - yearday(start)`.  The imported constant
`daysInYearWithoutLeapDay` is not exported by the src/ copy of datetime.ts (which
exports `daysInYear = 365`); it is modelled from the spec (section 4.4) as 365. -/
def intervalToDays (i : Interval) : Int :=
  (i.«end».year - i.start.year) * 365
    + leapDays i.«end».year - leapDays i.start.year
    + yearday { year := i.«end».year, month := i.«end».month, day := i.«end».day }
    - yearday { year := i.start.year, month := i.start.month, day := i.start.day }

/-- Embedding of `Interval.prototype.to` (src/interval.ts lines 74-103): `years` and
`months` are read off the stored decomposition (`months` as `years * 12 + months`);
`days` and finer cascade from the exact-day-count local (`intervalToDays`), multiplying
by 24, 60, 60, 1000 and adding the stored finer component at each step.  The
`assert.unreachable` default is unrepresentable here because the match is exhaustive. -/
def Interval.to (i : Interval) (key : DurationKey) : Int :=
  match key with
  | .years => i.years
  | .months => i.years * 12 + i.months
  | .days => intervalToDays i
  | .hours => intervalToDays i * 24 + i.hours
  | .minutes => (intervalToDays i * 24 + i.hours) * 60 + i.minutes
  | .seconds => ((intervalToDays i * 24 + i.hours) * 60 + i.minutes) * 60 + i.seconds
  | .milliseconds => (((intervalToDays i * 24 + i.hours) * 60 + i.minutes) * 60 + i.seconds) * 1000 + i.milliseconds

/-- The primitive a JS relational operator converts a `DateTime` instance to: the class
declares no `valueOf`, no `toString` and no `Symbol.toPrimitive`, so ToPrimitive falls
back to `Object.prototype.toString`, which returns the string "[object Object]" for
every instance. -/
def jsToPrimitive (_ : DateTime) : List Char :=
  ['[', 'o', 'b', 'j', 'e', 'c', 't', ' ', 'O', 'b', 'j', 'e', 'c', 't', ']']

/-- JS string relational comparison (lexicographic by code unit), on char lists. -/
def jsStrLt : List Char → List Char → Bool
  | [], [] => false
  | [], _ :: _ => true
  | _ :: _, [] => false
  | a :: as, b :: bs => if a < b then true else if b < a then false else jsStrLt as bs

/-- The JS expression `a <= b` on two `DateTime` objects: per the ECMAScript abstract
relational comparison, `a <= b` is `!(b < a)` after converting both operands with
ToPrimitive (see `jsToPrimitive`). -/
def jsLe (a b : DateTime) : Bool :=
  !jsStrLt (jsToPrimitive b) (jsToPrimitive a)

/-- Embedding of `Interval.prototype.contains` (src/interval.ts lines 104-106):
`this.start <= dt && dt <= this.end`, with the JS object comparison `jsLe`. -/
def Interval.contains (i : Interval) (dt : DateTime) : Bool :=
  jsLe i.start dt && jsLe dt i.«end»

/-- Embedding of `Interval.prototype.overlaps` (src/interval.ts lines 107-109):
`this.start <= i.end && i.start <= this.end`, with the JS object comparison `jsLe`. -/
def Interval.overlaps (i other : Interval) : Bool :=
  jsLe i.start other.«end» && jsLe other.start i.«end»

/-- Written from the spec's words (section 3): the total lexicographic order on the
field tuple (year, month, day, hour, minute, second, millisecond).  This is the
comparison `contains`/`overlaps` are specified against; it is deliberately a second,
spec-side definition to be compared with the code's `jsLe`. -/
def specLexLe (a b : DateTime) : Bool :=
  decide (a.year < b.year) || (a.year == b.year &&
    (decide (a.month < b.month) || (a.month == b.month &&
      (decide (a.day < b.day) || (a.day == b.day &&
        (decide (a.hour < b.hour) || (a.hour == b.hour &&
          (decide (a.minute < b.minute) || (a.minute == b.minute &&
            (decide (a.second < b.second) || (a.second == b.second &&
              a.millisecond ≤ b.millisecond)))))))))))

/-- Written from the spec's words (section 4.1): the leap-day count with floor
division, `floor(year/4) - floor(year/100) + floor(year/400)`; a second, spec-side
definition to be compared with the code's truncating `leapDays`. -/
def leapDaysSpec (year : Int) : Int :=
  year.fdiv 4 - year.fdiv 100 + year.fdiv 400

/-- Written from the spec's words (glossary): the days in the months of `year` strictly
before 1-based month `n + 1`, i.e. the sum of `daysInMonth year k` for `k` in [1, n]. -/
def monthsBefore (year : Int) : Nat → Int
  | 0 => 0
  | n + 1 => monthsBefore year n + daysInMonth year (n + 1)

/-- Written from the spec's words (glossary: "Yearday: zero-based ordinal position of a
date within its calendar year"): full months before this one, plus `day - 1`.  A
second, spec-side definition to be compared with the code's `yearday` formula. -/
def ordinalInYear (year month day : Int) : Int :=
  monthsBefore year (month - 1).toNat + day - 1

/-- Proof scaffolding: `daysInMonth` with the leap-year test abstracted into a Boolean
parameter, definitionally equal to `daysInMonth y m` at `leap := isLeapYear y`
(theorem `daysInMonth_eq_withLeap`); it lets finite case analyses run with the year
generalized away. -/
def daysInMonthWithLeap (leap : Bool) (month : Int) : Int :=
  daysInMonthArray.getD (month - 1).toNat 31 + (if month = 2 ∧ leap then 1 else 0)

/-- Proof scaffolding: `yearday` with the leap-year test abstracted, definitionally
equal to `yearday` (theorem `yearday_eq_withLeap`). -/
def yeardayWithLeap (leap : Bool) (month day : Int) : Int :=
  ((306 * ((month + 9).tmod 12 + 4)).tdiv 10 - 64 + day).tmod 365 +
    (if 2 < month ∧ leap then 1 else 0)

/-- Proof scaffolding: `monthsBefore` with the leap-year test abstracted (theorem
`monthsBefore_eq_withLeap`). -/
def monthsBeforeWithLeap (leap : Bool) : Nat → Int
  | 0 => 0
  | n + 1 => monthsBeforeWithLeap leap n + daysInMonthWithLeap leap (n + 1)

/-- Written from the spec's words (section 8, "brute-force day counter"): the calendar
successor of a date, stepping through month and year ends. -/
def nextDay (d : IDate) : IDate :=
  if d.day < daysInMonth d.year d.month then { year := d.year, month := d.month, day := d.day + 1 }
  else if d.month < 12 then { year := d.year, month := d.month + 1, day := 1 }
  else { year := d.year + 1, month := 1, day := 1 }

theorem daysInMonthArray_getD_ge (j : Nat) : 28 ≤ daysInMonthArray.getD j 31 := by
  rcases j with _|_|_|_|_|_|_|_|_|_|_|_|j <;> norm_num [daysInMonthArray, List.getD]

theorem daysInMonth_ge (y m : Int) : 28 ≤ daysInMonth y m := by
  have h2 := daysInMonthArray_getD_ge (m - 1).toNat
  unfold daysInMonth
  split <;> omega

theorem normDateUp_spec (year month day : Int) :
    1 ≤ month → month ≤ 12 →
    1 ≤ (normDateUp year month day).2.1 ∧ (normDateUp year month day).2.1 ≤ 12 ∧
      (normDateUp year month day).2.2 ≤
        daysInMonth (normDateUp year month day).1 (normDateUp year month day).2.1 ∧
      (1 ≤ day → 1 ≤ (normDateUp year month day).2.2) := by
  induction year, month, day using normDateUp.induct with
  | case1 year month day h hroll ih =>
    intro _hm1 _hm2
    unfold normDateUp
    rw [dif_pos h, if_pos hroll]
    obtain ⟨a, b, c, e⟩ := ih (by norm_num) (by norm_num)
    exact ⟨a, b, c, fun _ => e (by omega)⟩
  | case2 year month day h hroll ih =>
    intro _hm1 hm2
    unfold normDateUp
    rw [dif_pos h, if_neg hroll]
    obtain ⟨a, b, c, e⟩ := ih (by omega) (by omega)
    exact ⟨a, b, c, fun _ => e (by omega)⟩
  | case3 year month day h =>
    intro hm1 hm2
    unfold normDateUp
    rw [dif_neg h]
    exact ⟨hm1, hm2, show day ≤ daysInMonth year month by omega, fun hd => hd⟩

theorem normDateDown_spec (year month day : Int) :
    1 ≤ month → month ≤ 12 → day ≤ daysInMonth year month →
    1 ≤ (normDateDown year month day).2.1 ∧ (normDateDown year month day).2.1 ≤ 12 ∧
      1 ≤ (normDateDown year month day).2.2 ∧
      (normDateDown year month day).2.2 ≤
        daysInMonth (normDateDown year month day).1 (normDateDown year month day).2.1 := by
  induction year, month, day using normDateDown.induct with
  | case1 year month day h hroll ih =>
    intro _hm1 _hm2 _hd
    unfold normDateDown
    rw [dif_pos h, if_pos hroll]
    exact ih (by norm_num) (by norm_num) (by omega)
  | case2 year month day h hroll ih =>
    intro _hm1 hm2 _hd
    unfold normDateDown
    rw [dif_pos h, if_neg hroll]
    exact ih (by omega) (by omega) (by omega)
  | case3 year month day h =>
    intro hm1 hm2 hd
    unfold normDateDown
    rw [dif_neg h]
    exact ⟨hm1, hm2, show 1 ≤ day by omega, hd⟩

theorem normStartMonth_bounds (m : Int) :
    1 ≤ normStartMonth m ∧ normStartMonth m ≤ 12 := by
  unfold normStartMonth modulo
  split <;> omega

theorem normalizeDate_canonical (x : IDate) : CanonicalDate (normalizeDate x) := by
  obtain ⟨hma, hmb⟩ := normStartMonth_bounds x.month
  obtain ⟨h1, h2, h3, _h4⟩ :=
    normDateUp_spec (x.year + (x.month - 1).fdiv 12) (normStartMonth x.month) x.day hma hmb
  obtain ⟨g1, g2, g3, g4⟩ := normDateDown_spec _ _ _ h1 h2 h3
  exact ⟨g1, g2, g3, g4⟩

theorem normalizeDate_eq_self (d : IDate) (h : CanonicalDate d) : normalizeDate d = d := by
  obtain ⟨h1, h2, h3, h4⟩ := h
  have hm : normStartMonth d.month = d.month := by
    unfold normStartMonth modulo
    split <;> omega
  have hy : d.year + (d.month - 1).fdiv 12 = d.year := by
    rw [Int.fdiv_eq_ediv _ (by norm_num)]
    omega
  have hup : normDateUp (d.year + (d.month - 1).fdiv 12) (normStartMonth d.month) d.day
      = (d.year, d.month, d.day) := by
    rw [hm, hy]
    unfold normDateUp
    rw [dif_neg (by omega)]
  have hdown : normDateDown d.year d.month d.day = (d.year, d.month, d.day) := by
    unfold normDateDown
    rw [dif_neg (by omega)]
  simp only [normalizeDate, hup, hdown]

/-- C8: for every integer-valued date tuple `x`, `normalizeDate (normalizeDate x) =
normalizeDate x`, and the output of `normalizeDate` always satisfies `1 ≤ month ≤ 12`
and `1 ≤ day ≤ daysInMonth year month`. -/
theorem normalizeDate_idempotent_and_canonical (x : IDate) :
    normalizeDate (normalizeDate x) = normalizeDate x ∧
      1 ≤ (normalizeDate x).month ∧ (normalizeDate x).month ≤ 12 ∧
      1 ≤ (normalizeDate x).day ∧
      (normalizeDate x).day ≤ daysInMonth (normalizeDate x).year (normalizeDate x).month :=
  have hc := normalizeDate_canonical x
  ⟨normalizeDate_eq_self _ hc, hc.1, hc.2.1, hc.2.2.1, hc.2.2.2⟩

theorem normalizeTime_bounds (t : ITime) :
    0 ≤ (normalizeTime t).minute ∧ (normalizeTime t).minute ≤ 59 ∧
    0 ≤ (normalizeTime t).second ∧ (normalizeTime t).second ≤ 59 ∧
    0 ≤ (normalizeTime t).millisecond ∧ (normalizeTime t).millisecond ≤ 999 := by
  simp only [normalizeTime, modulo]
  omega

theorem normalizeDateTime_canonical (dt : DateTime) : Canonical (normalizeDateTime dt) := by
  obtain ⟨a1, a2, a3, a4⟩ := normalizeDate_canonical { day := dt.day + (normalizeTime { hour := dt.hour, minute := dt.minute, second := dt.second, millisecond := dt.millisecond }).hour.fdiv 24, month := dt.month, year := dt.year }
  obtain ⟨b1, b2, b3, b4, b5, b6⟩ := normalizeTime_bounds { hour := dt.hour, minute := dt.minute, second := dt.second, millisecond := dt.millisecond }
  have hh : 0 ≤ modulo (normalizeTime { hour := dt.hour, minute := dt.minute, second := dt.second, millisecond := dt.millisecond }).hour 24 ∧ modulo (normalizeTime { hour := dt.hour, minute := dt.minute, second := dt.second, millisecond := dt.millisecond }).hour 24 ≤ 23 := by
    unfold modulo
    omega
  exact ⟨a1, a2, a3, a4, hh.1, hh.2, b1, b2, b3, b4, b5, b6⟩

/-- C2: every `DateTime` reachable through the public API — `from` on a number, string
or `Date` source (whose host-provided UTC field decomposition is canonical), and
`with`, `plus`, `startOf`, `endOf` on any existing `DateTime` with any integer
arguments — has all seven fields in their canonical ranges. -/
theorem reachable_canonical (d : DateTime) (h : Reachable d) : Canonical d := by
  induction h with
  | fromSource d hc => exact hc
  | withStep d p _ _ => exact normalizeDateTime_canonical _
  | plusStep d dur _ _ => exact normalizeDateTime_canonical _
  | startOfStep d k _ _ => cases k <;> exact normalizeDateTime_canonical _
  | endOfStep d k _ _ => cases k <;> exact normalizeDateTime_canonical _

theorem reachable_canonical_witness :
    Reachable { year := 1970, month := 1, day := 31, hour := 0, minute := 0, second := 0, millisecond := 0 } ∧
    Canonical ((DateTime.plus
      { year := 1970, month := 1, day := 31, hour := 0, minute := 0, second := 0, millisecond := 0 }
      { months := some 1 })) :=
  have hr : Reachable { year := 1970, month := 1, day := 31, hour := 0, minute := 0, second := 0, millisecond := 0 } :=
    Reachable.fromSource _ (by decide)
  ⟨hr, reachable_canonical _ (Reachable.plusStep _ _ hr)⟩

theorem normalizeTime_eq_self (t : ITime) (h1 : 0 ≤ t.minute) (h2 : t.minute ≤ 59)
    (h3 : 0 ≤ t.second) (h4 : t.second ≤ 59)
    (h5 : 0 ≤ t.millisecond) (h6 : t.millisecond ≤ 999) :
    normalizeTime t = t := by
  have e1 : t.millisecond.fdiv 1000 = 0 := by
    rw [Int.fdiv_eq_ediv _ (by norm_num)]
    omega
  have e2 : t.second.fdiv 60 = 0 := by
    rw [Int.fdiv_eq_ediv _ (by norm_num)]
    omega
  have e3 : t.minute.fdiv 60 = 0 := by
    rw [Int.fdiv_eq_ediv _ (by norm_num)]
    omega
  have e4 : modulo t.minute 60 = t.minute := by
    unfold modulo
    omega
  have e5 : modulo t.second 60 = t.second := by
    unfold modulo
    omega
  have e6 : modulo t.millisecond 1000 = t.millisecond := by
    unfold modulo
    omega
  simp only [normalizeTime, e1, add_zero, e2, e3, e4, e5, e6]

theorem normalizeDateTime_eq_self (d : DateTime) (h : Canonical d) : normalizeDateTime d = d := by
  obtain ⟨h1, h2, h3, h4, h5, h6, h7, h8, h9, h10, h11, h12⟩ := h
  have ht : normalizeTime { hour := d.hour, minute := d.minute, second := d.second, millisecond := d.millisecond }
      = { hour := d.hour, minute := d.minute, second := d.second, millisecond := d.millisecond } :=
    normalizeTime_eq_self _ h7 h8 h9 h10 h11 h12
  have hh : (d.hour).fdiv 24 = 0 := by
    rw [Int.fdiv_eq_ediv _ (by norm_num)]
    omega
  have hm : modulo d.hour 24 = d.hour := by
    unfold modulo
    omega
  have hdate : normalizeDate { day := d.day, month := d.month, year := d.year }
      = { day := d.day, month := d.month, year := d.year } :=
    normalizeDate_eq_self _ ⟨h1, h2, h3, h4⟩
  simp only [normalizeDateTime, ht, hh, add_zero, hm, hdate]

/-- C10: on a canonical `DateTime` the full `normalizeDateTime` pipeline is the
identity, so `with` acting with no replaced fields (or with every field replaced by its
current value) changes nothing: `d.with({})` returns a `DateTime` whose seven fields
all equal `d`'s. -/
theorem with_empty_eq_self (d : DateTime) (h : Canonical d) :
    d.with' {} = d ∧
    d.with' { year := some d.year, month := some d.month, day := some d.day, hour := some d.hour, minute := some d.minute, second := some d.second, millisecond := some d.millisecond } = d :=
  ⟨normalizeDateTime_eq_self d h, normalizeDateTime_eq_self d h⟩

theorem with_empty_eq_self_witness :
    Canonical { year := 2024, month := 2, day := 29, hour := 23, minute := 59, second := 59, millisecond := 999 } ∧
    DateTime.with' { year := 2024, month := 2, day := 29, hour := 23, minute := 59, second := 59, millisecond := 999 } {}
      = { year := 2024, month := 2, day := 29, hour := 23, minute := 59, second := 59, millisecond := 999 } :=
  ⟨by decide, (with_empty_eq_self _ (by decide)).1⟩

/-- C5 counterexample: at year -1 the code's `leapDays` (truncating `| 0` division)
returns 0, while the spec's floor-division identity gives
`floor(-1/4) - floor(-1/100) + floor(-1/400) = -1 + 1 - 1 = -1`. -/
theorem leapDays_counterexample : leapDays (-1) ≠ leapDaysSpec (-1) := by decide

/-- C5 (amended): for every year ≥ 0 — where truncation and floor division agree —
`leapDays year` equals `floor(year/4) - floor(year/100) + floor(year/400)`; for
negative years the code truncates toward zero and can differ from the floor form. -/
theorem leapDays_eq_spec_of_nonneg (y : Int) (h : 0 ≤ y) : leapDays y = leapDaysSpec y := by
  unfold leapDays leapDaysSpec
  rw [Int.tdiv_eq_ediv h (by norm_num), Int.tdiv_eq_ediv h (by norm_num),
    Int.tdiv_eq_ediv h (by norm_num), Int.fdiv_eq_ediv y (show (0:Int) ≤ 4 by norm_num),
    Int.fdiv_eq_ediv y (show (0:Int) ≤ 100 by norm_num),
    Int.fdiv_eq_ediv y (show (0:Int) ≤ 400 by norm_num)]

theorem leapDays_eq_spec_witness : (0 : Int) ≤ 2024 ∧ leapDays 2024 = leapDaysSpec 2024 :=
  ⟨by decide, leapDays_eq_spec_of_nonneg 2024 (by decide)⟩

theorem daysInMonth_eq_withLeap (y m : Int) :
    daysInMonth y m = daysInMonthWithLeap (isLeapYear y) m := rfl

theorem yearday_eq_withLeap (y m d : Int) :
    yearday { year := y, month := m, day := d } = yeardayWithLeap (isLeapYear y) m d := rfl

theorem monthsBefore_eq_withLeap (y : Int) (n : Nat) :
    monthsBefore y n = monthsBeforeWithLeap (isLeapYear y) n := by
  induction n with
  | zero => rfl
  | succ n ih =>
    show monthsBefore y n + daysInMonth y (n + 1)
      = monthsBeforeWithLeap (isLeapYear y) n + daysInMonthWithLeap (isLeapYear y) (n + 1)
    rw [ih, daysInMonth_eq_withLeap]

theorem yearday_eq_ordinal_aux (y m d : Int) (h1 : 1 ≤ m) (h2 : m ≤ 12) (h3 : 1 ≤ d)
    (h4 : d ≤ daysInMonth y m) :
    yearday { year := y, month := m, day := d } = ordinalInYear y m d := by
  rw [daysInMonth_eq_withLeap] at h4
  rw [yearday_eq_withLeap]
  unfold ordinalInYear
  rw [monthsBefore_eq_withLeap]
  revert h3 h4
  generalize isLeapYear y = b
  intro h3 h4
  cases b <;> interval_cases m <;>
    (have h4x : d ≤ 31 := le_trans h4 (by decide)
     clear h4
     interval_cases d <;> decide)

/-- C7: for every canonical date (month in [1,12], day in [1, daysInMonth]),
`yearday` equals the 0-based ordinal position of the date within its calendar year
(0 = January 1); in particular `yearday(2024-01-01) = 0`, `yearday(2024-12-31) = 365`
and `yearday(2023-12-31) = 364`. -/
theorem yearday_eq_ordinal (y m d : Int) (h1 : 1 ≤ m) (h2 : m ≤ 12) (h3 : 1 ≤ d)
    (h4 : d ≤ daysInMonth y m) :
    yearday { year := y, month := m, day := d } = ordinalInYear y m d ∧
    yearday { year := 2024, month := 1, day := 1 } = 0 ∧
    yearday { year := 2024, month := 12, day := 31 } = 365 ∧
    yearday { year := 2023, month := 12, day := 31 } = 364 :=
  ⟨yearday_eq_ordinal_aux y m d h1 h2 h3 h4, by decide, by decide, by decide⟩

theorem yearday_eq_ordinal_witness :
    (1 ≤ (2 : Int) ∧ (2 : Int) ≤ 12 ∧ 1 ≤ (29 : Int) ∧ (29 : Int) ≤ daysInMonth 2024 2) ∧
    yearday { year := 2024, month := 2, day := 29 } = ordinalInYear 2024 2 29 :=
  ⟨⟨by decide, by decide, by decide, by decide⟩,
    (yearday_eq_ordinal 2024 2 29 (by decide) (by decide) (by decide) (by decide)).1⟩

theorem monthsBefore_nonneg (y : Int) (n : Nat) : 0 ≤ monthsBefore y n := by
  induction n with
  | zero => exact le_refl 0
  | succ n ih =>
    show 0 ≤ monthsBefore y n + daysInMonth y (n + 1)
    have h := daysInMonth_ge y (n + 1)
    omega

theorem yearday_nonneg (y m d : Int) (h1 : 1 ≤ m) (h2 : m ≤ 12) (h3 : 1 ≤ d)
    (h4 : d ≤ daysInMonth y m) : 0 ≤ yearday { year := y, month := m, day := d } := by
  rw [yearday_eq_ordinal_aux y m d h1 h2 h3 h4]
  unfold ordinalInYear
  have := monthsBefore_nonneg y (m - 1).toNat
  omega

theorem weekday_def (y m d : Int) :
    weekday { year := y, month := m, day := d }
      = (y + leapDays (y - 1) + yearday { year := y, month := m, day := d }).tmod 7 := rfl

/-- C6 counterexample: at the canonical date year -1, Jan 1 the code's `weekday`
returns -1 (the JS `%` keeps the dividend's sign), which is outside 0..6 and differs
from the claimed mathematical modulo, which gives 6. -/
theorem weekday_counterexample :
    weekday { year := -1, month := 1, day := 1 } = -1 ∧
    ¬ (0 ≤ weekday { year := -1, month := 1, day := 1 } ∧
        weekday { year := -1, month := 1, day := 1 } ≤ 6) ∧
    ((-1 : Int) + leapDays (-1 - 1) + yearday { year := -1, month := 1, day := 1 }) % 7 = 6 := by
  decide

/-- C6 (amended): for every canonical date with year ≥ 0 — where the JS remainder of
the (then non-negative) sum agrees with the mathematical modulo — `weekday(date)`
equals `(year + leapDays(year-1) + yearday(date)) mod 7`, lies in 0..6 with
0 = Sunday, and in particular `weekday({1970,1,1}) = 4` (Thursday); for negative years
the code's JS `%` can return a negative number. -/
theorem weekday_spec_for_nonneg_years (y m d : Int) (hy : 0 ≤ y) (h1 : 1 ≤ m)
    (h2 : m ≤ 12) (h3 : 1 ≤ d) (h4 : d ≤ daysInMonth y m) :
    weekday { year := y, month := m, day := d }
        = (y + leapDays (y - 1) + yearday { year := y, month := m, day := d }) % 7 ∧
      0 ≤ weekday { year := y, month := m, day := d } ∧
      weekday { year := y, month := m, day := d } ≤ 6 := by
  have hyd := yearday_nonneg y m d h1 h2 h3 h4
  have hld : 0 ≤ leapDays (y - 1) := by
    rcases lt_or_le (y - 1) 0 with hneg | hpos
    · have he : y - 1 = -1 := by omega
      rw [he]
      decide
    · unfold leapDays
      rw [Int.tdiv_eq_ediv hpos (by norm_num), Int.tdiv_eq_ediv hpos (by norm_num),
        Int.tdiv_eq_ediv hpos (by norm_num)]
      omega
  have hsum : 0 ≤ y + leapDays (y - 1) + yearday { year := y, month := m, day := d } := by
    omega
  rw [weekday_def, Int.tmod_eq_emod hsum (by norm_num)]
  exact ⟨rfl, by omega, by omega⟩

theorem weekday_spec_witness :
    weekday { year := 1970, month := 1, day := 1 } = 4 ∧
    weekday { year := 1970, month := 1, day := 1 }
      = ((1970 : Int) + leapDays (1970 - 1) + yearday { year := 1970, month := 1, day := 1 }) % 7 ∧
    0 ≤ weekday { year := 1970, month := 1, day := 1 } ∧
    weekday { year := 1970, month := 1, day := 1 } ≤ 6 :=
  have h := weekday_spec_for_nonneg_years 1970 1 1 (by decide) (by decide) (by decide)
    (by decide) (by decide)
  ⟨by decide, h.1, h.2.1, h.2.2⟩

/-- C4: for every `DateTime` anchor and duration object, `Interval.before(end, dur)`
is the interval whose end is the anchor and whose start is the anchor shifted backward
by the duration, and `Interval.after(start, dur)` is the interval from the anchor to
`anchor.plus(dur)` — both anchored at the given endpoint. -/
theorem before_after_anchored (e s : DateTime) (dur dur2 : DurationObject) :
    (Interval.before e dur).«end» = e ∧ (Interval.before e dur).start = e.minus dur ∧
    (Interval.after s dur2).start = s ∧ (Interval.after s dur2).«end» = s.plus dur2 :=
  ⟨rfl, rfl, rfl, rfl⟩

/-- C1 (code evaluated at the spec's own scenario): `contains` and `overlaps` compare
`DateTime` objects with the JS `<=` operator, which converts both operands to the
primitive string "[object Object]" (the class overrides neither `valueOf` nor
`toString`), so every such comparison — hence every `contains`/`overlaps` call — yields
true.  In particular, for the spec's intervals A = [Jan 1, Jan 10] and
C = [Jan 11, Jan 20] of 2023, `A.overlaps(C)` and `A.contains(Jan 11)` return true,
although the claimed field-tuple lexicographic test demands false at both
(`specLexLe C.start A.end = false`). -/
theorem contains_overlaps_always_true :
    (∀ (i : Interval) (dt : DateTime), i.contains dt = true) ∧
    (∀ (i j : Interval), i.overlaps j = true) ∧
    (mkInterval ⟨2023, 1, 1, 0, 0, 0, 0⟩ ⟨2023, 1, 10, 0, 0, 0, 0⟩).overlaps
      (mkInterval ⟨2023, 1, 11, 0, 0, 0, 0⟩ ⟨2023, 1, 20, 0, 0, 0, 0⟩) = true ∧
    (mkInterval ⟨2023, 1, 1, 0, 0, 0, 0⟩ ⟨2023, 1, 10, 0, 0, 0, 0⟩).contains
      ⟨2023, 1, 11, 0, 0, 0, 0⟩ = true ∧
    specLexLe (mkInterval ⟨2023, 1, 11, 0, 0, 0, 0⟩ ⟨2023, 1, 20, 0, 0, 0, 0⟩).start
      (mkInterval ⟨2023, 1, 1, 0, 0, 0, 0⟩ ⟨2023, 1, 10, 0, 0, 0, 0⟩).«end» = false ∧
    specLexLe (⟨2023, 1, 11, 0, 0, 0, 0⟩ : DateTime)
      (mkInterval ⟨2023, 1, 1, 0, 0, 0, 0⟩ ⟨2023, 1, 10, 0, 0, 0, 0⟩).«end» = false :=
  ⟨fun _ _ => rfl, fun _ _ => rfl, by decide, by decide, by decide, by decide⟩

/-- C3 (code evaluated at the failing input): for the canonical pair
start = 2023-02-01T00:00:00.000 and end = 2023-01-01T00:00:00.000 (end before start,
which the constructor accepts), the adjusted month count after the carry loops is
M = -1.  The constructor stores `years = Math.floor(-1 / 12) = -1` but
`months = -1 % 12 = -1` (the JS remainder, not the claimed non-negative modulo), so
`years * 12 + months = -13 ≠ M` and `to("months")` returns -13; with floor division
paired with the mathematical modulo it would reconstruct -1. -/
theorem interval_negative_months_mismatch :
    (mkInterval ⟨2023, 2, 1, 0, 0, 0, 0⟩ ⟨2023, 1, 1, 0, 0, 0, 0⟩).years = -1 ∧
    (mkInterval ⟨2023, 2, 1, 0, 0, 0, 0⟩ ⟨2023, 1, 1, 0, 0, 0, 0⟩).months = -1 ∧
    (mkInterval ⟨2023, 2, 1, 0, 0, 0, 0⟩ ⟨2023, 1, 1, 0, 0, 0, 0⟩).to DurationKey.months = -13 ∧
    (-1 : Int).fdiv 12 * 12 + (-1 : Int).emod 12 = -1 := by
  have hu1 : (intervalLoopUp 2023 2 (-1) 0).1 = -1 := by
    unfold intervalLoopUp
    rw [dif_neg (by decide)]
  have hu2 : (intervalLoopUp 2023 2 (-1) 0).2 = 0 := by
    unfold intervalLoopUp
    rw [dif_neg (by decide)]
  have hd1 : (intervalLoopDown 2023 2 (-1) 0).1 = -1 := by
    unfold intervalLoopDown
    rw [dif_neg (by decide)]
  refine ⟨?_, ?_, ?_, by decide⟩
  · show (intervalLoopDown 2023 2 (intervalLoopUp 2023 2 (-1) 0).1
      (intervalLoopUp 2023 2 (-1) 0).2).1.fdiv 12 = -1
    rw [hu1, hu2, hd1]
    decide
  · show (intervalLoopDown 2023 2 (intervalLoopUp 2023 2 (-1) 0).1
      (intervalLoopUp 2023 2 (-1) 0).2).1.tmod 12 = -1
    rw [hu1, hu2, hd1]
    decide
  · show (intervalLoopDown 2023 2 (intervalLoopUp 2023 2 (-1) 0).1
        (intervalLoopUp 2023 2 (-1) 0).2).1.fdiv 12 * 12 +
      (intervalLoopDown 2023 2 (intervalLoopUp 2023 2 (-1) 0).1
        (intervalLoopUp 2023 2 (-1) 0).2).1.tmod 12 = -13
    rw [hu1, hu2, hd1]
    decide

/-- C9 (code evaluated at failing inputs): for the one-calendar-day interval
[2023-12-31T00:00, 2024-01-01T00:00] the code's `to("days")` returns 2, although the
brute-force day counter reaches the end from the start in exactly one `nextDay` step;
for the one-day interval [2024-12-31, 2025-01-01] it even returns 0; and for the
spec's one-year leap span [2024-01-01, 2025-01-01] it returns 365, although 2024 has
366 days (its December 31 has 0-based ordinal 365).  The code computes
`leapDays(end.year) - leapDays(start.year)`, while the exact day count requires the
leap days of the years strictly before each endpoint (`year - 1`). -/
theorem interval_to_days_off_by_leap :
    (mkInterval ⟨2023, 12, 31, 0, 0, 0, 0⟩ ⟨2024, 1, 1, 0, 0, 0, 0⟩).to DurationKey.days = 2 ∧
    nextDay { year := 2023, month := 12, day := 31 } = { year := 2024, month := 1, day := 1 } ∧
    (mkInterval ⟨2024, 12, 31, 0, 0, 0, 0⟩ ⟨2025, 1, 1, 0, 0, 0, 0⟩).to DurationKey.days = 0 ∧
    nextDay { year := 2024, month := 12, day := 31 } = { year := 2025, month := 1, day := 1 } ∧
    (mkInterval ⟨2024, 1, 1, 0, 0, 0, 0⟩ ⟨2025, 1, 1, 0, 0, 0, 0⟩).to DurationKey.days = 365 ∧
    ordinalInYear 2024 12 31 = 365 := by
  decide

end DatetimeJS
